import Mathlib

/-!
Shallow embedding of the trading-agent-league backtest core
(src/engine/order_engine.py, src/engine/risk.py, src/engine/agents.py,
src/engine/market_replay.py) over exact rationals.

Modelling conventions:
* Python floats are modelled as `ℚ`; decimal literals such as `1e-12`
  become the exact rationals they denote.
* Python float division raises `ZeroDivisionError` when the divisor is
  exactly zero; fallible code is therefore embedded in `Except Err`.
* `pd.Timestamp` is modelled by `Ts`, a calendar day (`Int`, the result
  of `.normalize()`) plus an intra-day tick.
* Methods keep the Python names; mutation of `self` becomes explicit
  state passing, returning the updated record.
-/

namespace TradingLeague

attribute [local semireducible] Rat.add Rat.mul Rat.sub Rat.inv

/-- Calendar timestamp: `day` is the calendar day (what
`pd.Timestamp(t).normalize()` extracts), `tod` an intra-day tick. -/
structure Ts where
  day : Int
  tod : Nat
deriving DecidableEq

/-- The result of `pd.Timestamp(timestamp).normalize()`: the calendar day. -/
def Ts.normalize (t : Ts) : Int := t.day

/-- The Python exception classes raised by the embedded code:
`ValueError` for an unsupported side (`InvalidInput`), `ZeroDivisionError`
from float division by exactly zero, `ValueError` at construction time
(`InvalidConfiguration`), and `ValueError` for unknown strategy names. -/
inductive Err where
  | invalidInput
  | zeroDivision
  | invalidConfiguration
  | unknownStrategy
deriving DecidableEq

instance {ε α : Type} [DecidableEq ε] [DecidableEq α] :
    DecidableEq (Except ε α) := fun a b =>
  match a, b with
  | .error x, .error y =>
      if h : x = y then .isTrue (by rw [h])
      else .isFalse fun hc => h (Except.error.inj hc)
  | .ok x, .ok y =>
      if h : x = y then .isTrue (by rw [h])
      else .isFalse fun hc => h (Except.ok.inj hc)
  | .error _, .ok _ => .isFalse Except.noConfusion
  | .ok _, .error _ => .isFalse Except.noConfusion

/-- Python's two-argument `min` on floats (kept as an explicit `if` so
that concrete runs reduce in the kernel; equal to Mathlib's `min`). -/
def pymin (a b : ℚ) : ℚ := if a ≤ b then a else b

/-- Python's two-argument `max` on floats. -/
def pymax (a b : ℚ) : ℚ := if a ≤ b then b else a

/-- Python's `abs` on floats. -/
def pyabs (a : ℚ) : ℚ := if a < 0 then -a else a

lemma pymin_eq_min (a b : ℚ) : pymin a b = min a b := (min_def a b).symm

lemma pymax_eq_max (a b : ℚ) : pymax a b = max a b := (max_def a b).symm

lemma pymin_le_left (a b : ℚ) : pymin a b ≤ a := by
  rw [pymin_eq_min]; exact min_le_left a b

lemma pymin_le_right (a b : ℚ) : pymin a b ≤ b := by
  rw [pymin_eq_min]; exact min_le_right a b

/-- Python `str.lower()` for the ASCII action/side strings this code
compares against `"buy"`/`"sell"`/`"hold"`: character-wise
`Char.toLower` over the string's characters. -/
def strLower (s : String) : String := ⟨s.data.map Char.toLower⟩

/-- `Trade` dataclass of src/engine/order_engine.py. -/
structure Trade where
  timestamp : Ts
  side : String
  qty : ℚ
  fill_price : ℚ
  notional : ℚ
  fee : ℚ
  realized_pnl : ℚ
  cash_after : ℚ
  position_after : ℚ
deriving DecidableEq

/-- One element of `OrderEngine.equity_points` (the dict appended by
`mark_to_market`). -/
structure EquityPoint where
  timestamp : Ts
  equity : ℚ
  cash : ℚ
  position_qty : ℚ
  close : ℚ
deriving DecidableEq

/-- State of the `OrderEngine` class of src/engine/order_engine.py. -/
structure OrderEngine where
  initial_capital : ℚ
  cash : ℚ
  position_qty : ℚ
  position_cost_basis : ℚ
  slippage_bps : ℚ
  fee_bps : ℚ
  trades : List Trade
  equity_points : List EquityPoint
deriving DecidableEq

/-- `OrderEngine.__init__`: raises `ValueError` unless `initial_capital > 0`. -/
def OrderEngine.init (initial_capital slippage_bps fee_bps : ℚ) :
    Except Err OrderEngine :=
  if initial_capital ≤ 0 then .error .invalidConfiguration
  else .ok { initial_capital := initial_capital
             cash := initial_capital
             position_qty := 0
             position_cost_basis := 0
             slippage_bps := slippage_bps
             fee_bps := fee_bps
             trades := []
             equity_points := [] }

/-- The `fee_rate` property: `fee_bps / 10_000.0`. -/
def OrderEngine.fee_rate (e : OrderEngine) : ℚ := e.fee_bps / 10000

/-- The `slippage_rate` property: `slippage_bps / 10_000.0`. -/
def OrderEngine.slippage_rate (e : OrderEngine) : ℚ := e.slippage_bps / 10000

/-- `OrderEngine.total_equity`: `cash + position_qty * mark_price`. -/
def OrderEngine.total_equity (e : OrderEngine) (mark_price : ℚ) : ℚ :=
  e.cash + e.position_qty * mark_price

/-- `OrderEngine.mark_to_market`: appends one equity point built from the
current state and returns (new state, equity). -/
def OrderEngine.mark_to_market (e : OrderEngine) (timestamp : Ts)
    (close_price : ℚ) : OrderEngine × ℚ :=
  let equity := e.total_equity close_price
  ({ e with equity_points := e.equity_points ++
      [{ timestamp := timestamp
         equity := equity
         cash := e.cash
         position_qty := e.position_qty
         close := close_price }] },
   equity)

/-- `OrderEngine.execute_order`. Returns `(new state, executed trade?)`;
`.error .invalidInput` models the `ValueError` for an unsupported side and
`.error .zeroDivision` models the `ZeroDivisionError` raised by
`self.cash / (fill_price * (1.0 + self.fee_rate))` when the divisor is
exactly zero (Python float division has no guard there). -/
def OrderEngine.execute_order (e : OrderEngine) (timestamp : Ts)
    (side : String) (qty price : ℚ) :
    Except Err (OrderEngine × Option Trade) :=
  if qty ≤ 0 then .ok (e, none)
  else
    let side := strLower side
    if side ≠ "buy" ∧ side ≠ "sell" then .error .invalidInput
    else if side = "buy" then
      let fill_price := price * (1 + e.slippage_rate)
      let divisor := fill_price * (1 + e.fee_rate)
      if divisor = 0 then .error .zeroDivision
      else
        let affordable_qty := e.cash / divisor
        let trade_qty := pymin qty affordable_qty
        if trade_qty ≤ 0 then .ok (e, none)
        else
          let notional := trade_qty * fill_price
          let fee := notional * e.fee_rate
          let total_cost := notional + fee
          let cash' := e.cash - total_cost
          let position_qty' := e.position_qty + trade_qty
          let trade : Trade :=
            { timestamp := timestamp
              side := side
              qty := trade_qty
              fill_price := fill_price
              notional := notional
              fee := fee
              realized_pnl := 0
              cash_after := cash'
              position_after := position_qty' }
          .ok ({ e with cash := cash'
                        position_qty := position_qty'
                        position_cost_basis := e.position_cost_basis + total_cost
                        trades := e.trades ++ [trade] },
               some trade)
    else
      let trade_qty := pymin qty e.position_qty
      if trade_qty ≤ 0 then .ok (e, none)
      else
        let fill_price := price * (1 - e.slippage_rate)
        let notional := trade_qty * fill_price
        let fee := notional * e.fee_rate
        let proceeds := notional - fee
        let avg_cost :=
          if 0 < e.position_qty then e.position_cost_basis / e.position_qty
          else 0
        let cost_released := avg_cost * trade_qty
        let realized_pnl := proceeds - cost_released
        let cash' := e.cash + proceeds
        let pos_raw := e.position_qty - trade_qty
        let basis_raw := e.position_cost_basis - cost_released
        let position_qty' := if pos_raw ≤ 1 / 1000000000000 then 0 else pos_raw
        let basis' := if pos_raw ≤ 1 / 1000000000000 then 0 else basis_raw
        let trade : Trade :=
          { timestamp := timestamp
            side := side
            qty := trade_qty
            fill_price := fill_price
            notional := notional
            fee := fee
            realized_pnl := realized_pnl
            cash_after := cash'
            position_after := position_qty' }
        .ok ({ e with cash := cash'
                      position_qty := position_qty'
                      position_cost_basis := basis'
                      trades := e.trades ++ [trade] },
             some trade)

/-- One call against an `OrderEngine`: either `execute_order` or
`mark_to_market`. -/
inductive EngineOp where
  | exec (timestamp : Ts) (side : String) (qty price : ℚ)
  | mark (timestamp : Ts) (close_price : ℚ)
deriving DecidableEq

/-- Applies one `EngineOp` to the engine state. -/
def applyOp (e : OrderEngine) : EngineOp → Except Err OrderEngine
  | .exec ts side qty price => do
      let r ← e.execute_order ts side qty price
      pure r.1
  | .mark ts close_price => pure (e.mark_to_market ts close_price).1

/-- Runs a sequence of engine calls; a raised exception aborts the
sequence, as in Python. -/
def runOps (e : OrderEngine) : List EngineOp → Except Err OrderEngine
  | [] => .ok e
  | op :: rest => do
      let e' ← applyOp e op
      runOps e' rest

/-- `RiskConfig` dataclass of src/engine/risk.py; the Python field
defaults are `max_position_pct=1.0`, `max_daily_drawdown_pct=0.05`,
`min_trade_notional=10.0`. -/
structure RiskConfig where
  max_position_pct : ℚ
  max_daily_drawdown_pct : ℚ
  min_trade_notional : ℚ
deriving DecidableEq

/-- `RiskConfig()` built with all dataclass defaults. -/
def RiskConfig.default : RiskConfig :=
  { max_position_pct := 1
    max_daily_drawdown_pct := 1 / 20
    min_trade_notional := 10 }

/-- State of the `RiskManager` class of src/engine/risk.py. -/
structure RiskManager where
  config : RiskConfig
  current_day : Option Int
  day_start_equity : Option ℚ
  guard_triggered : Bool
deriving DecidableEq

/-- `RiskManager.__init__(config)`: `config or RiskConfig()` (so `None`
selects the defaults), then validates the thresholds. -/
def RiskManager.init (config : Option RiskConfig) : Except Err RiskManager :=
  let config := config.getD RiskConfig.default
  if ¬(0 < config.max_position_pct ∧ config.max_position_pct ≤ 1) then
    .error .invalidConfiguration
  else if ¬(0 < config.max_daily_drawdown_pct ∧
            config.max_daily_drawdown_pct < 1) then
    .error .invalidConfiguration
  else
    .ok { config := config
          current_day := none
          day_start_equity := none
          guard_triggered := false }

/-- `RiskManager.register_equity(timestamp, equity)`: resets the guard on
the first call or when the bar's calendar day differs from the tracked
day; otherwise trips the guard when the day return crosses the drawdown
threshold. `1e-9` is the day-start floor of the source. -/
def RiskManager.register_equity (r : RiskManager) (timestamp : Ts)
    (equity : ℚ) : RiskManager :=
  let bar_day := timestamp.normalize
  if r.current_day = none ∨ some bar_day ≠ r.current_day then
    { r with current_day := some bar_day
             day_start_equity := some (pymax equity (1 / 1000000000))
             guard_triggered := false }
  else
    let day_start :=
      match r.day_start_equity with
      | none => pymax equity (1 / 1000000000)
      | some v => v
    let day_return := equity / day_start - 1
    { r with day_start_equity := some day_start
             guard_triggered :=
               if day_return ≤ -r.config.max_daily_drawdown_pct then true
               else r.guard_triggered }

/-- `RiskManager.can_add_risk()`: `not self.guard_triggered`. -/
def RiskManager.can_add_risk (r : RiskManager) : Bool := !r.guard_triggered

/-- `RiskManager.size_buy_qty`. -/
def RiskManager.size_buy_qty (r : RiskManager)
    (requested_fraction price cash equity current_position_qty : ℚ) : ℚ :=
  if price ≤ 0 ∨ cash ≤ 0 ∨ equity ≤ 0 then 0
  else
    let requested_fraction := pymax 0 (pymin 1 requested_fraction)
    if requested_fraction = 0 then 0
    else
      let max_position_notional := equity * r.config.max_position_pct
      let current_notional := current_position_qty * price
      let remaining_notional_capacity :=
        pymax 0 (max_position_notional - current_notional)
      let requested_notional := equity * requested_fraction
      let target_notional :=
        pymin (pymin requested_notional remaining_notional_capacity) cash
      if target_notional < r.config.min_trade_notional then 0
      else target_notional / price

/-- `RiskManager.size_sell_qty`. -/
def RiskManager.size_sell_qty (r : RiskManager)
    (requested_fraction current_position_qty : ℚ) : ℚ :=
  if current_position_qty ≤ 0 then 0
  else
    let requested_fraction := pymax 0 (pymin 1 requested_fraction)
    if requested_fraction = 0 then 0
    else current_position_qty * requested_fraction

/-- `Signal` dataclass of src/engine/agents.py. -/
structure Signal where
  action : String
  size : ℚ
deriving DecidableEq

/-- The module-level `HOLD_SIGNAL` constant. -/
def HOLD_SIGNAL : Signal := { action := "hold", size := 0 }

/-- One OHLCV bar (a row of the validated DataFrame handed to the core by
`load_ohlcv_csv`; CSV ingestion itself is outside the embedded core). -/
structure Bar where
  timestamp : Ts
  open_ : ℚ
  high : ℚ
  low : ℚ
  close : ℚ
  volume : ℚ
deriving DecidableEq

/-- `pd.Series.rolling(w).mean()` over the list of closes: entry `i` is
the mean of entries `i-w+1 .. i`, and `NaN` (here `none`) while fewer
than `w` observations are available. -/
def rollingMean (w : Nat) (xs : List ℚ) : List (Option ℚ) :=
  (List.range xs.length).map fun i =>
    if i + 1 < w then none
    else some (((xs.take (i + 1)).drop (i + 1 - w)).sum / (w : ℚ))

/-- `pd.Series.diff()`: `NaN` (none) at position 0, else the difference
with the previous entry. -/
def seriesDiff (xs : List ℚ) : List (Option ℚ) :=
  match xs with
  | [] => []
  | x :: rest => none :: List.zipWith (fun a b => some (b - a)) (x :: rest) rest

/-- Recursion core of `ewmMean`: carries the count of non-missing
observations seen so far and the current smoothed value. -/
def ewmGo (alpha : ℚ) (min_periods : Nat) :
    Nat → Option ℚ → List (Option ℚ) → List (Option ℚ)
  | _, _, [] => []
  | count, cur, none :: rest =>
      (if min_periods ≤ count then cur else none) ::
        ewmGo alpha min_periods count cur rest
  | count, cur, some v :: rest =>
      let next :=
        match cur with
        | none => v
        | some c => (1 - alpha) * c + alpha * v
      (if min_periods ≤ count + 1 then some next else none) ::
        ewmGo alpha min_periods (count + 1) (some next) rest

/-- `pd.Series.ewm(alpha=α, adjust=False, min_periods=p).mean()` for
series whose missing values form a prefix (the only shape the RSI
pipeline produces, since its input comes from `Series.diff()`): the first
non-missing value seeds the recursion `y = (1-α)·y + α·x`, and the output
is `NaN` (none) until `p` non-missing observations have been seen. -/
def ewmMean (alpha : ℚ) (min_periods : Nat) (xs : List (Option ℚ)) :
    List (Option ℚ) :=
  ewmGo alpha min_periods 0 none xs

/-- The three strategy classes of src/engine/agents.py as a closed set of
variants, each carrying its constructor parameters and mutable per-run
state (`None`-initialised indicator series become `Option`). -/
inductive Agent where
  | buyHold (entered : Bool)
  | smaCrossover (short_window long_window : Nat)
      (sma_short sma_long : Option (List (Option ℚ)))
  | rsiMeanReversion (period : Nat) (lower upper buy_size : ℚ)
      (rsi : Option (List (Option ℚ)))
deriving DecidableEq

/-- The class-level `name` attribute of each agent. -/
def Agent.name : Agent → String
  | .buyHold _ => "buy_hold"
  | .smaCrossover _ _ _ _ => "sma_crossover"
  | .rsiMeanReversion _ _ _ _ _ => "rsi_mean_reversion"

/-- `reset()`: `BuyAndHoldAgent` clears its `entered` flag; the other two
agents return `None` (no state change). -/
def Agent.reset : Agent → Agent
  | .buyHold _ => .buyHold false
  | a => a

/-- `prepare(data)`: pre-computes the whole-history indicator series
(`rolling(...).mean()` for the SMA agent, the EWM-smoothed RSI pipeline
for the RSI agent; `BuyAndHoldAgent` inherits the base no-op). -/
def Agent.prepare (a : Agent) (data : List Bar) : Agent :=
  match a with
  | .buyHold entered => .buyHold entered
  | .smaCrossover s l _ _ =>
      let close := data.map Bar.close
      .smaCrossover s l (some (rollingMean s close)) (some (rollingMean l close))
  | .rsiMeanReversion p lo hi bs _ =>
      let close := data.map Bar.close
      let delta := seriesDiff close
      let gains := delta.map (Option.map fun d => pymax d 0)
      let losses := delta.map (Option.map fun d => -(pymin d 0))
      let avg_gain := ewmMean (1 / (p : ℚ)) p gains
      let avg_loss := ewmMean (1 / (p : ℚ)) p losses
      let avg_loss_nz :=
        avg_loss.map fun o => o.bind fun v => if v = 0 then none else some v
      let rs := List.zipWith
        (fun g l =>
          match g, l with
          | some gv, some lv => some (gv / lv)
          | _, _ => none)
        avg_gain avg_loss_nz
      let rsi := rs.map (Option.map fun r => 100 - 100 / (1 + r))
      .rsiMeanReversion p lo hi bs (some (rsi.map fun o => some (o.getD 50)))

/-- `on_bar(index, row, position_qty)`: emits this bar's `Signal` (and
the possibly-updated agent state; only `BuyAndHoldAgent` mutates here).
An out-of-range index is modelled as a missing indicator value; the
runner only passes in-range indices. -/
def Agent.on_bar : Agent → Nat → Bar → ℚ → Signal × Agent
  | .buyHold entered, _, _, position_qty =>
      if ¬entered ∧ position_qty ≤ 0 then
        ({ action := "buy", size := 1 }, .buyHold true)
      else (HOLD_SIGNAL, .buyHold entered)
  | .smaCrossover s l os ol, index, _, position_qty =>
      let a := Agent.smaCrossover s l os ol
      match os, ol with
      | some ss, some sl =>
        match ss.getD index none, sl.getD index none with
        | some fast, some slow =>
          if fast > slow ∧ position_qty ≤ 0 then
            ({ action := "buy", size := 1 }, a)
          else if fast < slow ∧ position_qty > 0 then
            ({ action := "sell", size := 1 }, a)
          else (HOLD_SIGNAL, a)
        | _, _ => (HOLD_SIGNAL, a)
      | _, _ => (HOLD_SIGNAL, a)
  | .rsiMeanReversion p lo hi bs orsi, index, _, position_qty =>
      let a := Agent.rsiMeanReversion p lo hi bs orsi
      match orsi with
      | some rsi =>
        match rsi.getD index none with
        | some v =>
          if v < lo ∧ position_qty ≤ 0 then
            ({ action := "buy", size := bs }, a)
          else if v > hi ∧ position_qty > 0 then
            ({ action := "sell", size := 1 }, a)
          else (HOLD_SIGNAL, a)
        | none => (HOLD_SIGNAL, a)
      | none => (HOLD_SIGNAL, a)

/-- `get_baseline_agents()`: insertion-ordered dict of the three baseline
agents with their default constructor arguments (all of which satisfy the
constructor validation). -/
def get_baseline_agents : List (String × Agent) :=
  [("buy_hold", .buyHold false),
   ("sma_crossover", .smaCrossover 20 50 none none),
   ("rsi_mean_reversion", .rsiMeanReversion 14 30 70 (1 / 2) none)]

/-- Metrics mapping returned by `compute_metrics`. The `sharpe` entry of
the source (`sqrt(252) * mean / std` of bar-to-bar returns) is a real
number involving an irrational factor; no claim depends on it and it is
not modelled. -/
structure Metrics where
  total_return : ℚ
  max_drawdown : ℚ
  win_rate : ℚ
deriving DecidableEq

/-- Running maximum seeded with `m` (`pd.Series.cummax()` core). -/
def cummaxGo (m : ℚ) : List ℚ → List ℚ
  | [] => []
  | x :: rest => pymax m x :: cummaxGo (pymax m x) rest

/-- `pd.Series.cummax()`. -/
def cummax : List ℚ → List ℚ
  | [] => []
  | x :: rest => cummaxGo x (x :: rest)

/-- Minimum of a list seeded with its first element (`pd.Series.min()`
of a non-empty series). -/
def listMin : List ℚ → ℚ
  | [] => 0
  | x :: rest => rest.foldl pymin x

/-- `compute_metrics(equity_curve, trades, initial_capital)` of
src/engine/market_replay.py, for equity curves with positive running
peaks (the equity/peak division by an exact zero, a NaN in pandas that
`min()` skips, is outside the inputs any claim exercises). -/
def compute_metrics (equity_curve : List EquityPoint) (trades : List Trade)
    (initial_capital : ℚ) : Metrics :=
  match equity_curve with
  | [] => { total_return := 0, max_drawdown := 0, win_rate := 0 }
  | p :: ps =>
    let equity := (p :: ps).map EquityPoint.equity
    let final_equity := equity.getLastD 0
    let total_return := final_equity / initial_capital - 1
    let rolling_peak := cummax equity
    let drawdown := List.zipWith (fun e pk => e / pk - 1) equity rolling_peak
    let max_drawdown := pyabs (listMin drawdown)
    let closed_trades := trades.filter fun t => t.side = "sell"
    let win_rate :=
      if closed_trades.isEmpty then 0
      else ((closed_trades.filter fun t => 0 < t.realized_pnl).length : ℚ) /
        (closed_trades.length : ℚ)
    { total_return := total_return
      max_drawdown := max_drawdown
      win_rate := win_rate }

/-- `BacktestResult` dataclass of src/engine/market_replay.py. -/
structure BacktestResult where
  strategy : String
  trades : List Trade
  equity_curve : List EquityPoint
  metrics : Metrics
deriving DecidableEq

/-- One iteration of the `run_backtest` bar loop: equity snapshot, risk
registration, the agent's signal, conditional order execution
(`buy` gated by `can_add_risk`, the `elif` making `sell` unconditional),
then the unconditional `mark_to_market`. -/
def run_bar (st : OrderEngine × RiskManager × Agent) (index : Nat)
    (bar : Bar) : Except Err (OrderEngine × RiskManager × Agent) := do
  let (engine, risk, agent) := st
  let timestamp := bar.timestamp
  let close_price := bar.close
  let equity_before := engine.total_equity close_price
  let risk := risk.register_equity timestamp equity_before
  let (signal, agent) := agent.on_bar index bar engine.position_qty
  let action := strLower signal.action
  let engine ←
    if action = "buy" ∧ risk.can_add_risk = true then do
      let qty := risk.size_buy_qty signal.size close_price engine.cash
        equity_before engine.position_qty
      let r ← engine.execute_order timestamp "buy" qty close_price
      pure r.1
    else if action = "sell" then do
      let qty := risk.size_sell_qty signal.size engine.position_qty
      let r ← engine.execute_order timestamp "sell" qty close_price
      pure r.1
    else pure engine
  pure ((engine.mark_to_market timestamp close_price).1, risk, agent)

/-- Folds `run_bar` over the indexed bars; a raised exception aborts the
run, as in Python. -/
def run_bars (st : OrderEngine × RiskManager × Agent) :
    List (Nat × Bar) → Except Err (OrderEngine × RiskManager × Agent)
  | [] => .ok st
  | ib :: rest => do
      let st' ← run_bar st ib.1 ib.2
      run_bars st' rest

/-- `run_backtest(data, agent, initial_capital, slippage_bps, fee_bps,
risk_config)`: fresh engine and risk manager, `reset` then `prepare`,
the per-bar loop, then metrics. -/
def run_backtest (data : List Bar) (agent : Agent)
    (initial_capital slippage_bps fee_bps : ℚ)
    (risk_config : Option RiskConfig) : Except Err BacktestResult := do
  let engine ← OrderEngine.init initial_capital slippage_bps fee_bps
  let risk ← RiskManager.init risk_config
  let agent := agent.reset
  let agent := agent.prepare data
  let st ← run_bars (engine, risk, agent) data.enum
  let trades := st.1.trades
  let equity_curve := st.1.equity_points
  pure { strategy := agent.name
         trades := trades
         equity_curve := equity_curve
         metrics := compute_metrics equity_curve trades initial_capital }

/-- One leaderboard row (`sharpe` not modelled, see `Metrics`). -/
structure Row where
  strategy : String
  final_equity : ℚ
  total_return : ℚ
  max_drawdown : ℚ
  win_rate : ℚ
deriving DecidableEq

/-- `LeagueResult` dataclass. -/
structure LeagueResult where
  leaderboard : List Row
  backtests : List (String × BacktestResult)
deriving DecidableEq

/-- Key comparison used to order leaderboard rows: ascending
`total_return`. -/
def rowLe (a b : Row) : Prop := a.total_return ≤ b.total_return

instance : DecidableRel rowLe := fun a b =>
  inferInstanceAs (Decidable (a.total_return ≤ b.total_return))

instance : IsTotal Row rowLe := ⟨fun a b => le_total a.total_return b.total_return⟩

instance : IsTrans Row rowLe := ⟨fun _ _ _ hab hbc => le_trans hab hbc⟩

/-- `pd.DataFrame(rows).sort_values("total_return", ascending=False)`.
pandas (`pandas.core.sorting.nargsort`) implements a descending sort by
reversing the values and indices, running an ascending argsort, and
reversing the resulting indexer again (the double reversal of pandas
GH#6399, which makes descending sorts stable); numpy's default
`quicksort` is an introsort whose small-partition pass is a stable
insertion sort, so on leaderboard-sized inputs the ascending argsort is
the stable insertion sort modelled here. The net effect is a stable
descending sort: rows with equal keys keep their input order. -/
def sort_values_total_return_desc (rows : List Row) : List Row :=
  (List.insertionSort rowLe rows.reverse).reverse

/-- The per-strategy loop body of `run_league`: look the strategy up in
`available`, run its backtest, and append its summary row (the
`final_equity` falls back to `initial_capital` for an empty curve) and
its `BacktestResult` entry. -/
def league_rows_go (data : List Bar) (initial_capital slippage_bps fee_bps : ℚ)
    (risk_config : Option RiskConfig)
    (acc : List Row × List (String × BacktestResult)) :
    List String → Except Err (List Row × List (String × BacktestResult))
  | [] => .ok acc
  | strategy :: rest => do
      match List.lookup strategy get_baseline_agents with
      | none => .error .unknownStrategy
      | some agent => do
          let result ← run_backtest data agent initial_capital slippage_bps
            fee_bps risk_config
          let final_equity :=
            if result.equity_curve.isEmpty then initial_capital
            else (result.equity_curve.map EquityPoint.equity).getLastD
              initial_capital
          let row : Row :=
            { strategy := strategy
              final_equity := final_equity
              total_return := result.metrics.total_return
              max_drawdown := result.metrics.max_drawdown
              win_rate := result.metrics.win_rate }
          league_rows_go data initial_capital slippage_bps fee_bps risk_config
            (acc.1 ++ [row], acc.2 ++ [(strategy, result)]) rest

/-- Strategy selection and the backtest loop of `run_league`: Python's
`list(strategies) if strategies else list(available.keys())` treats both
`None` and an empty list as falsy, selecting every baseline; unknown
names raise before any backtest runs. -/
def league_rows (data : List Bar) (strategies : Option (List String))
    (initial_capital slippage_bps fee_bps : ℚ)
    (risk_config : Option RiskConfig) :
    Except Err (List Row × List (String × BacktestResult)) :=
  let available := get_baseline_agents
  let selected :=
    match strategies with
    | none => available.map Prod.fst
    | some l => if l.isEmpty then available.map Prod.fst else l
  let unknown := selected.filter fun n => !(available.map Prod.fst).contains n
  if ¬unknown.isEmpty then .error .unknownStrategy
  else league_rows_go data initial_capital slippage_bps fee_bps risk_config
    ([], []) selected

/-- `run_league` (with the CSV already ingested into a bar list by the
excluded `load_ohlcv_csv` boundary): per-strategy backtests, then the
leaderboard sorted by `total_return` descending. -/
def run_league (data : List Bar) (strategies : Option (List String))
    (initial_capital slippage_bps fee_bps : ℚ)
    (risk_config : Option RiskConfig) : Except Err LeagueResult := do
  let rb ← league_rows data strategies initial_capital slippage_bps fee_bps
    risk_config
  pure { leaderboard := sort_values_total_return_desc rb.1
         backtests := rb.2 }

/-! ### Concrete inputs used by witnesses and counterexamples -/

/-- Three flat-price daily bars with `close = 100` (scenario A of the
spec, also the tie-producing league input). -/
def flatBars : List Bar :=
  [{ timestamp := ⟨0, 0⟩, open_ := 100, high := 100, low := 100, close := 100, volume := 0 },
   { timestamp := ⟨1, 0⟩, open_ := 100, high := 100, low := 100, close := 100, volume := 0 },
   { timestamp := ⟨2, 0⟩, open_ := 100, high := 100, low := 100, close := 100, volume := 0 }]

/-- The engine `OrderEngine(1, 0, 0)` produces. -/
def engine1 : OrderEngine :=
  { initial_capital := 1
    cash := 1
    position_qty := 0
    position_cost_basis := 0
    slippage_bps := 0
    fee_bps := 0
    trades := []
    equity_points := [] }

/-- `engine1` after `mark_to_market(t0, 5)`. -/
def engine1m : OrderEngine :=
  { engine1 with equity_points :=
      [{ timestamp := ⟨0, 0⟩, equity := 1, cash := 1, position_qty := 0, close := 5 }] }

/-! ### Basic facts about `execute_order` -/

/-- A successful `execute_order` never touches `equity_points` (only
`mark_to_market` appends equity points). -/
lemma execute_order_ok_equity_points {e : OrderEngine} {ts : Ts}
    {side : String} {qty price : ℚ} {out : OrderEngine × Option Trade}
    (h : e.execute_order ts side qty price = .ok out) :
    out.1.equity_points = e.equity_points := by
  obtain ⟨e', ot⟩ := out
  simp only [OrderEngine.execute_order] at h
  split_ifs at h <;>
    first
      | exact Except.noConfusion h
      | (injection h with h; injection h with h1 h2; subst h1; rfl)

/-- A successful `execute_order` keeps the engine's configuration
(slippage and fee bps, initial capital) unchanged. -/
lemma execute_order_ok_config {e : OrderEngine} {ts : Ts}
    {side : String} {qty price : ℚ} {out : OrderEngine × Option Trade}
    (h : e.execute_order ts side qty price = .ok out) :
    out.1.slippage_bps = e.slippage_bps ∧ out.1.fee_bps = e.fee_bps ∧
      out.1.initial_capital = e.initial_capital := by
  obtain ⟨e', ot⟩ := out
  simp only [OrderEngine.execute_order] at h
  split_ifs at h <;>
    first
      | exact Except.noConfusion h
      | (injection h with h; injection h with h1 h2; subst h1;
         exact ⟨rfl, rfl, rfl⟩)

/-! ### C1 -/

/-- Every recorded equity point satisfies the equity identity. -/
def GoodPoints (e : OrderEngine) : Prop :=
  ∀ pt ∈ e.equity_points, pt.equity = pt.cash + pt.position_qty * pt.close

lemma goodPoints_applyOp {e e' : OrderEngine} {op : EngineOp}
    (h : applyOp e op = .ok e') (hg : GoodPoints e) : GoodPoints e' := by
  cases op with
  | exec ts side qty price =>
      simp only [applyOp, bind, Except.bind] at h
      cases hr : e.execute_order ts side qty price with
      | error err => rw [hr] at h; cases h
      | ok out =>
          rw [hr] at h
          simp only [pure, Except.pure, Except.ok.injEq] at h
          subst h
          intro pt hpt
          exact hg pt (by rw [← execute_order_ok_equity_points hr]; exact hpt)
  | mark ts close_price =>
      simp only [applyOp, pure, Except.pure, Except.ok.injEq] at h
      subst h
      intro pt hpt
      simp only [OrderEngine.mark_to_market, List.mem_append,
        List.mem_singleton] at hpt
      rcases hpt with hold | hnew
      · exact hg pt hold
      · subst hnew
        rfl

lemma goodPoints_runOps {e e' : OrderEngine} {ops : List EngineOp}
    (h : runOps e ops = .ok e') (hg : GoodPoints e) : GoodPoints e' := by
  induction ops generalizing e with
  | nil => simp only [runOps, Except.ok.injEq] at h; subst h; exact hg
  | cons op rest ih =>
      simp only [runOps, bind, Except.bind] at h
      cases ha : applyOp e op with
      | error err => rw [ha] at h; cases h
      | ok e1 => rw [ha] at h; exact ih h (goodPoints_applyOp ha hg)

/-- C1: for every order engine and every sequence of `execute_order` and
`mark_to_market` calls, every recorded equity point satisfies
`equity = cash + position_qty * close` (exactly, in the exact-rational
model; the floating-point code satisfies it up to ε). The quantification
over `ops` covers every prefix of a longer call sequence, hence every
point ever appended. -/
theorem equity_point_identity (cap slip fee : ℚ) (e0 : OrderEngine)
    (hinit : OrderEngine.init cap slip fee = .ok e0)
    (ops : List EngineOp) (e' : OrderEngine)
    (hrun : runOps e0 ops = .ok e') :
    ∀ pt ∈ e'.equity_points, pt.equity = pt.cash + pt.position_qty * pt.close := by
  have hg0 : GoodPoints e0 := by
    simp only [OrderEngine.init] at hinit
    split_ifs at hinit
    simp only [Except.ok.injEq] at hinit
    subst hinit
    intro pt hpt
    cases hpt
  exact goodPoints_runOps hrun hg0

/-- Witness for C1 at `OrderEngine(1, 0, 0)` followed by one
`mark_to_market(t0, 5)` call. -/
theorem equity_point_identity_witness :
    ({ timestamp := ⟨0, 0⟩, equity := 1, cash := 1, position_qty := 0,
       close := 5 } : EquityPoint).equity =
      ({ timestamp := ⟨0, 0⟩, equity := 1, cash := 1, position_qty := 0,
         close := 5 } : EquityPoint).cash +
      ({ timestamp := ⟨0, 0⟩, equity := 1, cash := 1, position_qty := 0,
         close := 5 } : EquityPoint).position_qty *
      ({ timestamp := ⟨0, 0⟩, equity := 1, cash := 1, position_qty := 0,
         close := 5 } : EquityPoint).close :=
  equity_point_identity 1 0 0 engine1 rfl
    [EngineOp.mark ⟨0, 0⟩ 5] engine1m rfl _ (by decide)

/-! ### C5 -/

/-- C5: scenario A end to end. With 3 flat bars at close 100, the
`buy_hold` strategy, `initial_capital = 1000` and zero fees and slippage,
the backtest records exactly one trade, a buy of qty 10 at fill price 100
on the first bar, and the final equity is exactly 1000. -/
theorem scenario_a_buy_hold :
    (run_backtest flatBars (Agent.buyHold false) 1000 0 0 none).toOption.map
        (fun r => (r.trades, (r.equity_curve.map EquityPoint.equity).getLastD 0)) =
      some ([{ timestamp := ⟨0, 0⟩
               side := "buy"
               qty := 10
               fill_price := 100
               notional := 1000
               fee := 0
               realized_pnl := 0
               cash_after := 0
               position_after := 10 }], 1000) := by
  decide

/-! ### C6 -/

/-- The claim's description of `size_buy_qty`, written as stated in the
spec: clamp the fraction to `[0,1]`, form the target notional as the
minimum of `equity × fraction`, the remaining capacity under the
`max_position_pct` cap, and cash; return 0 on any non-positive
price/cash/equity, zero clamped fraction, or a target notional below the
`min_trade_notional` floor; otherwise `target_notional / price`. -/
def size_buy_qty_spec (cfg : RiskConfig)
    (requested_fraction price cash equity current_position_qty : ℚ) : ℚ :=
  let f := max 0 (min 1 requested_fraction)
  let target := min (min (equity * f)
    (max 0 (equity * cfg.max_position_pct - current_position_qty * price))) cash
  if price ≤ 0 ∨ cash ≤ 0 ∨ equity ≤ 0 ∨ f = 0 ∨
      target < cfg.min_trade_notional then 0
  else target / price

/-- C6: `size_buy_qty` agrees with the claim's case description on every
combination of inputs. -/
theorem size_buy_qty_matches_spec (r : RiskManager)
    (requested_fraction price cash equity current_position_qty : ℚ) :
    r.size_buy_qty requested_fraction price cash equity current_position_qty =
      size_buy_qty_spec r.config requested_fraction price cash equity
        current_position_qty := by
  simp only [RiskManager.size_buy_qty, size_buy_qty_spec]
  split_ifs <;> tauto

/-! ### C8 -/

/-- C8: `execute_order` raises `InvalidInput` exactly when `qty > 0` and
the lowercased side is neither `buy` nor `sell`; side matching is
case-insensitive (side `BUY` behaves as `buy`); and the `qty ≤ 0` no-op
check precedes side validation, so `qty ≤ 0` with any side returns no
trade with the state unchanged. -/
theorem execute_order_invalid_side (e : OrderEngine) (ts : Ts)
    (side : String) (qty price : ℚ) :
    (e.execute_order ts side qty price = .error .invalidInput ↔
      0 < qty ∧ strLower side ≠ "buy" ∧ strLower side ≠ "sell")
    ∧ e.execute_order ts "BUY" qty price = e.execute_order ts "buy" qty price
    ∧ (qty ≤ 0 → e.execute_order ts side qty price = .ok (e, none)) := by
  refine ⟨?_, ?_, ?_⟩
  · simp only [OrderEngine.execute_order]
    split_ifs with h1 h2 h3 h4 h5 <;>
      simp_all [not_le, Err.invalidInput, Err.zeroDivision]
  · have hb : strLower "BUY" = "buy" := by decide
    have hb' : strLower "buy" = "buy" := by decide
    simp only [OrderEngine.execute_order, hb, hb']
  · intro hq
    simp only [OrderEngine.execute_order, if_pos hq]

/-- Witness for C8: side `"HOLD"` with `qty = 1` raises `InvalidInput`. -/
theorem execute_order_invalid_side_witness :
    engine1.execute_order ⟨0, 0⟩ "HOLD" 1 1 = .error .invalidInput :=
  (execute_order_invalid_side engine1 ⟨0, 0⟩ "HOLD" 1 1).1.mpr (by decide)

/-! ### C9 -/

/-- C9: a buy with `qty > 0` and `price = 0` divides by an exact zero in
the affordable-quantity computation (the Python code raises
`ZeroDivisionError`, with no guard), while a buy at `price < 0` (with
non-negative configured rates and positive cash, as every freshly
constructed engine has) yields a negative affordable quantity and is a
no-op returning no trade with the state unchanged. -/
theorem execute_order_zero_price (e : OrderEngine) (ts : Ts) (qty price : ℚ) :
    (0 < qty → e.execute_order ts "buy" qty 0 = .error .zeroDivision)
    ∧ (0 < qty → price < 0 → 0 < e.cash → 0 ≤ e.slippage_bps → 0 ≤ e.fee_bps →
        e.cash / (price * (1 + e.slippage_rate) * (1 + e.fee_rate)) < 0 ∧
        e.execute_order ts "buy" qty price = .ok (e, none)) := by
  have hb : strLower "buy" = "buy" := by decide
  constructor
  · intro hq
    simp only [OrderEngine.execute_order, hb]
    rw [if_neg (not_le.mpr hq),
      if_neg (by decide : ¬(¬("buy" : String) = "buy" ∧
        ¬("buy" : String) = "sell")),
      if_pos trivial,
      if_pos (by ring : (0 : ℚ) * (1 + e.slippage_rate) *
        (1 + e.fee_rate) = 0)]
  · intro hq hp hcash hslip hfee
    have hs : (0 : ℚ) < 1 + e.slippage_rate := by
      have : (0 : ℚ) ≤ e.slippage_rate := by
        unfold OrderEngine.slippage_rate; positivity
      linarith
    have hf : (0 : ℚ) < 1 + e.fee_rate := by
      have : (0 : ℚ) ≤ e.fee_rate := by
        unfold OrderEngine.fee_rate; positivity
      linarith
    have hdiv : price * (1 + e.slippage_rate) * (1 + e.fee_rate) < 0 :=
      mul_neg_of_neg_of_pos (mul_neg_of_neg_of_pos hp hs) hf
    have haff : e.cash / (price * (1 + e.slippage_rate) * (1 + e.fee_rate)) < 0 :=
      div_neg_of_pos_of_neg hcash hdiv
    refine ⟨haff, ?_⟩
    simp only [OrderEngine.execute_order, hb]
    rw [if_neg (not_le.mpr hq),
      if_neg (by decide : ¬(¬("buy" : String) = "buy" ∧
        ¬("buy" : String) = "sell")),
      if_pos trivial, if_neg (ne_of_lt hdiv),
      if_pos (le_trans (pymin_le_right _ _) (le_of_lt haff))]

/-- Witness for C9 at `OrderEngine(1, 0, 0)`, `qty = 1`, `price = -1`. -/
theorem execute_order_zero_price_witness :
    engine1.execute_order ⟨0, 0⟩ "buy" 1 0 = .error .zeroDivision ∧
      engine1.execute_order ⟨0, 0⟩ "buy" 1 (-1) = .ok (engine1, none) :=
  ⟨(execute_order_zero_price engine1 ⟨0, 0⟩ 1 (-1)).1 (by decide),
   ((execute_order_zero_price engine1 ⟨0, 0⟩ 1 (-1)).2 (by decide) (by decide)
      (by decide) (by decide) (by decide)).2⟩

/-! ### C4 -/

/-- Folding a sequence of `register_equity` calls over the risk state. -/
def register_equity_seq (r : RiskManager) (calls : List (Ts × ℚ)) :
    RiskManager :=
  calls.foldl (fun s c => s.register_equity c.1 c.2) r

/-- A same-day `register_equity` call never clears a tripped guard (the
same-day branch only ever sets `guard_triggered`), and keeps the tracked
day. -/
lemma register_equity_same_day_guard {r : RiskManager} {ts : Ts}
    {equity : ℚ} (hday : r.current_day = some ts.normalize)
    (hg : r.guard_triggered = true) :
    (r.register_equity ts equity).guard_triggered = true ∧
      (r.register_equity ts equity).current_day = some ts.normalize := by
  unfold RiskManager.register_equity
  rw [if_neg (by simp [hday])]
  constructor
  · simp only [hg]
    split_ifs <;> rfl
  · exact hday

lemma register_equity_seq_same_day {d : Int} :
    ∀ (calls : List (Ts × ℚ)) (r : RiskManager),
      r.guard_triggered = true → r.current_day = some d →
      (∀ c ∈ calls, (c.1).normalize = d) →
      (register_equity_seq r calls).guard_triggered = true ∧
        (register_equity_seq r calls).current_day = some d := by
  intro calls
  induction calls with
  | nil => intro r hg hd _; exact ⟨hg, hd⟩
  | cons c rest ih =>
      intro r hg hd hall
      have hc : (c.1).normalize = d := hall c (by simp)
      have step := @register_equity_same_day_guard r c.1 c.2
        (by rw [hd, hc]) hg
      simp only [register_equity_seq, List.foldl_cons]
      exact ih _ step.1 (by rw [step.2, hc])
        (fun x hx => hall x (List.mem_cons_of_mem c hx))

/-- C4: (a) once the guard is tripped with day `d` tracked, any sequence
of further `register_equity` calls on calendar day `d` leaves the guard
tripped, so `can_add_risk()` stays false for the rest of that day even if
equity recovers intraday (the quantification over `calls` covers every
prefix, hence every intermediate query); (b) a call whose calendar day
differs from the tracked day (or arrives with no tracked day) resets the
guard, after which `can_add_risk()` is true; (c) after such a reset the
guard stays clear on same-day calls while the day return stays above the
drawdown threshold, i.e. until it is triggered again. -/
theorem drawdown_guard_day_scoped :
    (∀ (r : RiskManager) (d : Int) (calls : List (Ts × ℚ)),
      r.guard_triggered = true → r.current_day = some d →
      (∀ c ∈ calls, (c.1).normalize = d) →
      (register_equity_seq r calls).guard_triggered = true ∧
        (register_equity_seq r calls).can_add_risk = false)
    ∧ (∀ (r : RiskManager) (ts : Ts) (equity : ℚ),
        r.current_day ≠ some ts.normalize →
        (r.register_equity ts equity).guard_triggered = false ∧
          (r.register_equity ts equity).can_add_risk = true)
    ∧ (∀ (r : RiskManager) (ts : Ts) (equity day_start : ℚ),
        r.guard_triggered = false →
        r.current_day = some ts.normalize →
        r.day_start_equity = some day_start →
        -r.config.max_daily_drawdown_pct < equity / day_start - 1 →
        (r.register_equity ts equity).guard_triggered = false ∧
          (r.register_equity ts equity).can_add_risk = true) := by
  refine ⟨?_, ?_, ?_⟩
  · intro r d calls hg hd hall
    have h := register_equity_seq_same_day calls r hg hd hall
    exact ⟨h.1, by simp [RiskManager.can_add_risk, h.1]⟩
  · intro r ts equity hne
    unfold RiskManager.register_equity
    rw [if_pos (Or.inr fun h => hne h.symm)]
    exact ⟨rfl, rfl⟩
  · intro r ts equity day_start hg hd hds hret
    unfold RiskManager.register_equity
    rw [if_neg (by simp [hd])]
    constructor
    · simp only [hds, hg]
      rw [if_neg (not_le.mpr hret)]
    · simp only [RiskManager.can_add_risk, hds, hg]
      rw [if_neg (not_le.mpr hret)]
      rfl

/-- A risk manager mid-day with the guard tripped (day 0 tracked, day
start equity 1000). -/
def riskGuardOn : RiskManager :=
  { config := RiskConfig.default
    current_day := some 0
    day_start_equity := some 1000
    guard_triggered := true }

/-- Witness for C4: with the guard tripped on day 0, a same-day call with
fully recovered equity still reports `can_add_risk() = false`, while a
day-1 call resets the guard and reports `can_add_risk() = true`. -/
theorem drawdown_guard_day_scoped_witness :
    (register_equity_seq riskGuardOn [(⟨0, 1⟩, 2000)]).can_add_risk = false ∧
      (riskGuardOn.register_equity ⟨1, 0⟩ 500).can_add_risk = true :=
  ⟨(drawdown_guard_day_scoped.1 riskGuardOn 0 [(⟨0, 1⟩, 2000)] rfl rfl
      (by decide)).2,
   (drawdown_guard_day_scoped.2.1 riskGuardOn ⟨1, 0⟩ 500 (by decide)).2⟩

/-! ### C2 -/

/-- Inductive state predicate for C2: non-negative cash and position,
with the configured rates inside the 0–100 % band. -/
def SolventState (e : OrderEngine) : Prop :=
  0 ≤ e.cash ∧ 0 ≤ e.position_qty ∧
    0 ≤ e.slippage_bps ∧ e.slippage_bps ≤ 10000 ∧
    0 ≤ e.fee_bps ∧ e.fee_bps ≤ 10000

lemma rate_bounds {bps : ℚ} (h0 : 0 ≤ bps) (h1 : bps ≤ 10000) :
    0 ≤ bps / 10000 ∧ bps / 10000 ≤ 1 :=
  ⟨div_nonneg h0 (by norm_num),
   (div_le_one (by norm_num)).mpr h1⟩

lemma execute_order_solvent {e : OrderEngine} {ts : Ts} {side : String}
    {qty price : ℚ} {out : OrderEngine × Option Trade}
    (hinv : SolventState e) (hp : 0 < price)
    (h : e.execute_order ts side qty price = .ok out) :
    SolventState out.1 := by
  obtain ⟨hcash, hpos, hs0, hs1, hf0, hf1⟩ := hinv
  obtain ⟨hsr0, hsr1⟩ := rate_bounds hs0 hs1
  obtain ⟨hfr0, hfr1⟩ := rate_bounds hf0 hf1
  rw [show e.slippage_bps / 10000 = e.slippage_rate from rfl] at hsr0 hsr1
  rw [show e.fee_bps / 10000 = e.fee_rate from rfl] at hfr0 hfr1
  obtain ⟨e', ot⟩ := out
  simp only [OrderEngine.execute_order] at h
  split_ifs at h with h1 h2 h3 h4 h5 h6 h7 h8 <;>
    try (exact Except.noConfusion h)
  all_goals
    injection h with h; injection h with hh1 hh2; subst hh1
  -- no-op branches
  case pos => exact ⟨hcash, hpos, hs0, hs1, hf0, hf1⟩
  case pos => exact ⟨hcash, hpos, hs0, hs1, hf0, hf1⟩
  case pos => exact ⟨hcash, hpos, hs0, hs1, hf0, hf1⟩
  -- executing buy
  case neg =>
    have hfill : 0 < price * (1 + e.slippage_rate) := by positivity
    have hdiv : 0 < price * (1 + e.slippage_rate) * (1 + e.fee_rate) := by
      positivity
    have htq : ¬pymin qty
        (e.cash / (price * (1 + e.slippage_rate) * (1 + e.fee_rate))) ≤ 0 := h5
    set tq := pymin qty
      (e.cash / (price * (1 + e.slippage_rate) * (1 + e.fee_rate))) with htqdef
    have htq' : 0 < tq := lt_of_not_le htq
    have hle : tq ≤ e.cash / (price * (1 + e.slippage_rate) * (1 + e.fee_rate)) :=
      pymin_le_right _ _
    have hcost : tq * (price * (1 + e.slippage_rate) * (1 + e.fee_rate)) ≤
        e.cash := (le_div_iff hdiv).mp hle
    refine ⟨?_, by positivity, hs0, hs1, hf0, hf1⟩
    have heq : tq * (price * (1 + e.slippage_rate)) +
        tq * (price * (1 + e.slippage_rate)) * e.fee_rate =
        tq * (price * (1 + e.slippage_rate) * (1 + e.fee_rate)) := by ring
    simp only [OrderEngine.cash]
    linarith
  -- executing sell
  all_goals
    have htq : ¬pymin qty e.position_qty ≤ 0 := by assumption
    have htq' : 0 < pymin qty e.position_qty := lt_of_not_le htq
    have htqpos : pymin qty e.position_qty ≤ e.position_qty :=
      pymin_le_right _ _
    have hfillnn : 0 ≤ price * (1 - e.slippage_rate) := by
      have : 0 ≤ 1 - e.slippage_rate := by linarith
      positivity
    have hnot : 0 ≤ pymin qty e.position_qty * (price * (1 - e.slippage_rate)) :=
      mul_nonneg (le_of_lt htq') hfillnn
    have hproc : 0 ≤ pymin qty e.position_qty * (price * (1 - e.slippage_rate)) -
        pymin qty e.position_qty * (price * (1 - e.slippage_rate)) * e.fee_rate := by
      nlinarith
  all_goals
    refine ⟨by simp only [OrderEngine.cash]; linarith, ?_, hs0, hs1, hf0, hf1⟩
  all_goals simp only [OrderEngine.position_qty]
  any_goals linarith
  all_goals norm_num

/-- `mark_to_market` changes only `equity_points`. -/
lemma mark_to_market_solvent {e : OrderEngine} {ts : Ts} {cp : ℚ}
    (hinv : SolventState e) : SolventState (e.mark_to_market ts cp).1 := hinv

/-- Prices of all `execute_order` calls in an op list are positive. -/
def PositivePrices (ops : List EngineOp) : Prop :=
  ∀ op ∈ ops, ∀ ts side qty price, op = EngineOp.exec ts side qty price →
    0 < price

lemma runOps_solvent : ∀ {ops : List EngineOp} {e e' : OrderEngine},
    SolventState e → PositivePrices ops → runOps e ops = .ok e' →
    SolventState e' := by
  intro ops
  induction ops with
  | nil =>
      intro e e' hinv _ h
      simp only [runOps, Except.ok.injEq] at h
      subst h; exact hinv
  | cons op rest ih =>
      intro e e' hinv hpp h
      simp only [runOps, bind, Except.bind] at h
      cases ha : applyOp e op with
      | error err => rw [ha] at h; cases h
      | ok e1 =>
          rw [ha] at h
          refine ih ?_ (fun o ho => hpp o (List.mem_cons_of_mem op ho)) h
          cases op with
          | exec ts side qty price =>
              simp only [applyOp, bind, Except.bind] at ha
              cases hr : e.execute_order ts side qty price with
              | error err => rw [hr] at ha; cases ha
              | ok out =>
                  rw [hr] at ha
                  simp only [pure, Except.pure, Except.ok.injEq] at ha
                  subst ha
                  exact execute_order_solvent hinv
                    (hpp _ (List.mem_cons_self _ rest) ts side qty price rfl) hr
          | mark ts cp =>
              simp only [applyOp, pure, Except.pure, Except.ok.injEq] at ha
              subst ha
              exact mark_to_market_solvent hinv

/-- C2 counterexample: the claim as stated fails on the code. The
constructor accepts `fee_bps = 20000` (a 200 % fee rate), and with
`initial_capital = 100`, `slippage_bps = 0` the sequence
buy(qty 1000, price 1); sell(qty 100, price 1) — all prices positive —
leaves `cash = -100/3 < 0`: the sell's proceeds
`notional × (1 - fee_rate)` are negative, so cash decreases below zero. -/
theorem cash_negative_counterexample :
    ((OrderEngine.init 100 0 20000).bind fun e0 =>
        runOps e0 [EngineOp.exec ⟨0, 0⟩ "buy" 1000 1,
          EngineOp.exec ⟨0, 1⟩ "sell" 100 1]).toOption.map
      OrderEngine.cash = some (-100 / 3) ∧ (-100 / 3 : ℚ) < 0 := by
  decide

/-- C2 (amended): for every engine constructed with positive capital and
slippage and fee rates within the 0–100 % band (`bps` in `[0, 10000]`;
the code itself never validates these, and outside this band a sell can
drive cash negative, see the counterexample), every sequence of
`execute_order` calls at positive prices keeps `cash ≥ 0` and
`position_qty ≥ 0`: buys are clamped to the affordable quantity and
sells to the current position. The quantification over `ops` covers
every prefix, hence cash and position never become negative at any
intermediate state either. -/
theorem cash_and_position_never_negative (cap slip fee : ℚ)
    (hs0 : 0 ≤ slip) (hs1 : slip ≤ 10000)
    (hf0 : 0 ≤ fee) (hf1 : fee ≤ 10000)
    (e0 : OrderEngine) (hinit : OrderEngine.init cap slip fee = .ok e0)
    (ops : List EngineOp) (hpp : PositivePrices ops)
    (e' : OrderEngine) (hrun : runOps e0 ops = .ok e') :
    0 ≤ e'.cash ∧ 0 ≤ e'.position_qty := by
  have h0 : SolventState e0 := by
    simp only [OrderEngine.init] at hinit
    split_ifs at hinit with hc
    simp only [Except.ok.injEq] at hinit
    subst hinit
    exact ⟨le_of_lt (lt_of_not_le hc), le_refl 0, hs0, hs1, hf0, hf1⟩
  have h := runOps_solvent h0 hpp hrun
  exact ⟨h.1, h.2.1⟩

/-- The trade `execute_order(t0, "buy", 1, 1)` records on `engine1`. -/
def trade1 : Trade :=
  { timestamp := ⟨0, 0⟩
    side := "buy"
    qty := 1
    fill_price := 1
    notional := 1
    fee := 0
    realized_pnl := 0
    cash_after := 0
    position_after := 1 }

/-- `engine1` after `execute_order(t0, "buy", 1, 1)`. -/
def engine1b : OrderEngine :=
  { engine1 with
    cash := 0
    position_qty := 1
    position_cost_basis := 1
    trades := [trade1] }

/-- Witness for C2 (amended) at `OrderEngine(1, 0, 0)` after one buy. -/
theorem cash_and_position_never_negative_witness :
    0 ≤ engine1b.cash ∧ 0 ≤ engine1b.position_qty :=
  cash_and_position_never_negative 1 0 0 (by norm_num) (by norm_num)
    (by norm_num) (by norm_num) engine1 rfl
    [EngineOp.exec ⟨0, 0⟩ "buy" 1 1]
    (by
      intro op ho ts side q p hop
      simp only [List.mem_singleton] at ho
      subst ho
      cases hop
      norm_num)
    engine1b (by decide)

/-! ### C7 -/

/-- Inductive invariant for C7. First conjunct: the position and its cost
basis are zero together or positive together. Second conjunct: either the
configured rate product is positive (the only regime in which a buy can
ever execute at a positive price), or the engine is still in its initial
frozen shape (positive cash, no position) — in that regime every order at
a positive price is a no-op or an exception, because a buy's affordable
quantity is non-positive and a sell has nothing to close. -/
def BasisInv (e : OrderEngine) : Prop :=
  ((e.position_qty = 0 ∧ e.position_cost_basis = 0) ∨
    (0 < e.position_qty ∧ 0 < e.position_cost_basis)) ∧
  (0 < (1 + e.slippage_rate) * (1 + e.fee_rate) ∨
    (0 < e.cash ∧ e.position_qty = 0 ∧ e.position_cost_basis = 0))

lemma execute_order_basisInv {e : OrderEngine} {ts : Ts} {side : String}
    {qty price : ℚ} {out : OrderEngine × Option Trade}
    (hinv : BasisInv e) (hp : 0 < price)
    (h : e.execute_order ts side qty price = .ok out) :
    BasisInv out.1 := by
  obtain ⟨e', ot⟩ := out
  obtain ⟨hmain, hreg⟩ := hinv
  have hposnn : 0 ≤ e.position_qty := by
    rcases hmain with ⟨h0, _⟩ | ⟨h0, _⟩
    · exact le_of_eq h0.symm
    · exact le_of_lt h0
  have hbasnn : 0 ≤ e.position_cost_basis := by
    rcases hmain with ⟨_, h0⟩ | ⟨_, h0⟩
    · exact le_of_eq h0.symm
    · exact le_of_lt h0
  simp only [OrderEngine.execute_order] at h
  by_cases h1 : qty ≤ 0
  · rw [if_pos h1] at h
    injection h with h; injection h with hh1 hh2; subst hh1
    exact ⟨hmain, hreg⟩
  rw [if_neg h1] at h
  by_cases h2 : strLower side ≠ "buy" ∧ strLower side ≠ "sell"
  · rw [if_pos h2] at h; exact Except.noConfusion h
  rw [if_neg h2] at h
  by_cases h3 : strLower side = "buy"
  · rw [if_pos h3] at h
    by_cases h4 : price * (1 + e.slippage_rate) * (1 + e.fee_rate) = 0
    · rw [if_pos h4] at h; exact Except.noConfusion h
    rw [if_neg h4] at h
    by_cases h5 : pymin qty
        (e.cash / (price * (1 + e.slippage_rate) * (1 + e.fee_rate))) ≤ 0
    · rw [if_pos h5] at h
      injection h with h; injection h with hh1 hh2; subst hh1
      exact ⟨hmain, hreg⟩
    rw [if_neg h5] at h
    injection h with h; injection h with hh1 hh2; subst hh1
    have htq : 0 < pymin qty
        (e.cash / (price * (1 + e.slippage_rate) * (1 + e.fee_rate))) :=
      lt_of_not_le h5
    have hD : 0 < price * (1 + e.slippage_rate) * (1 + e.fee_rate) := by
      rcases hreg with hR | ⟨hcash, _, _⟩
      · calc (0 : ℚ) < price * ((1 + e.slippage_rate) * (1 + e.fee_rate)) :=
              mul_pos hp hR
          _ = price * (1 + e.slippage_rate) * (1 + e.fee_rate) := by ring
      · by_contra hle
        have hDneg : price * (1 + e.slippage_rate) * (1 + e.fee_rate) < 0 :=
          lt_of_le_of_ne (le_of_not_lt hle) h4
        have : e.cash / (price * (1 + e.slippage_rate) * (1 + e.fee_rate)) < 0 :=
          div_neg_of_pos_of_neg hcash hDneg
        exact absurd (lt_of_lt_of_le htq (pymin_le_right _ _)) (not_lt.mpr
          (le_of_lt this))
    have hR : 0 < (1 + e.slippage_rate) * (1 + e.fee_rate) := by
      have heq : price * ((1 + e.slippage_rate) * (1 + e.fee_rate)) =
          price * (1 + e.slippage_rate) * (1 + e.fee_rate) := by ring
      have := hD
      rw [← heq] at this
      exact (mul_pos_iff_of_pos_left hp).mp this
    have hcost : 0 < pymin qty
          (e.cash / (price * (1 + e.slippage_rate) * (1 + e.fee_rate))) *
            (price * (1 + e.slippage_rate)) +
          pymin qty
            (e.cash / (price * (1 + e.slippage_rate) * (1 + e.fee_rate))) *
            (price * (1 + e.slippage_rate)) * e.fee_rate := by
      have heq : pymin qty
            (e.cash / (price * (1 + e.slippage_rate) * (1 + e.fee_rate))) *
              (price * (1 + e.slippage_rate)) +
            pymin qty
              (e.cash / (price * (1 + e.slippage_rate) * (1 + e.fee_rate))) *
              (price * (1 + e.slippage_rate)) * e.fee_rate =
          pymin qty
            (e.cash / (price * (1 + e.slippage_rate) * (1 + e.fee_rate))) *
            (price * (1 + e.slippage_rate) * (1 + e.fee_rate)) := by ring
      rw [heq]
      exact mul_pos htq hD
    constructor
    · exact Or.inr ⟨by positivity, by positivity⟩
    · exact Or.inl hR
  · rw [if_neg h3] at h
    by_cases h5 : pymin qty e.position_qty ≤ 0
    · rw [if_pos h5] at h
      injection h with h; injection h with hh1 hh2; subst hh1
      exact ⟨hmain, hreg⟩
    rw [if_neg h5] at h
    injection h with h; injection h with hh1 hh2; subst hh1
    have htq : 0 < pymin qty e.position_qty := lt_of_not_le h5
    have hpos : 0 < e.position_qty :=
      lt_of_lt_of_le htq (pymin_le_right _ _)
    have hbasis : 0 < e.position_cost_basis := by
      rcases hmain with ⟨h0, _⟩ | ⟨_, h0⟩
      · exact absurd hpos (by rw [h0]; exact lt_irrefl 0)
      · exact h0
    have hRleft : 0 < (1 + e.slippage_rate) * (1 + e.fee_rate) := by
      rcases hreg with hR | ⟨_, h0, _⟩
      · exact hR
      · exact absurd hpos (by rw [h0]; exact lt_irrefl 0)
    rw [if_pos hpos]
    by_cases hsnap : e.position_qty - pymin qty e.position_qty ≤
        1 / 1000000000000
    · simp only [if_pos hsnap]
      exact ⟨Or.inl ⟨rfl, rfl⟩, Or.inl hRleft⟩
    · simp only [if_neg hsnap]
      have h12 : (0 : ℚ) < 1 / 1000000000000 := by norm_num
      have hraw : 0 < e.position_qty - pymin qty e.position_qty := by
        have := lt_of_not_le hsnap
        linarith
      refine ⟨Or.inr ⟨hraw, ?_⟩, Or.inl hRleft⟩
      have hne : e.position_qty ≠ 0 := ne_of_gt hpos
      have heq : e.position_cost_basis -
          e.position_cost_basis / e.position_qty *
            (pymin qty e.position_qty) =
          e.position_cost_basis *
            (e.position_qty - pymin qty e.position_qty) /
            e.position_qty := by
        field_simp
        ring
      rw [heq]
      exact div_pos (mul_pos hbasis hraw) hpos

lemma runOps_basisInv : ∀ {ops : List EngineOp} {e e' : OrderEngine},
    BasisInv e → PositivePrices ops → runOps e ops = .ok e' →
    BasisInv e' := by
  intro ops
  induction ops with
  | nil =>
      intro e e' hinv _ h
      simp only [runOps, Except.ok.injEq] at h
      subst h; exact hinv
  | cons op rest ih =>
      intro e e' hinv hpp h
      simp only [runOps, bind, Except.bind] at h
      cases ha : applyOp e op with
      | error err => rw [ha] at h; cases h
      | ok e1 =>
          rw [ha] at h
          refine ih ?_ (fun o ho => hpp o (List.mem_cons_of_mem op ho)) h
          cases op with
          | exec ts side qty price =>
              simp only [applyOp, bind, Except.bind] at ha
              cases hr : e.execute_order ts side qty price with
              | error err => rw [hr] at ha; cases ha
              | ok out =>
                  rw [hr] at ha
                  simp only [pure, Except.pure, Except.ok.injEq] at ha
                  subst ha
                  exact execute_order_basisInv hinv
                    (hpp _ (List.mem_cons_self _ rest) ts side qty price rfl) hr
          | mark ts cp =>
              simp only [applyOp, pure, Except.pure, Except.ok.injEq] at ha
              subst ha
              exact hinv

/-- C7: after every sequence of `execute_order` calls at positive prices
(`mark_to_market` calls allowed in between; the quantification over `ops`
covers every prefix, hence every intermediate state), the cost basis is
zero exactly when the position is zero; and a sell that leaves the
position within `1e-12` of zero snaps both the position and the cost
basis to exactly 0. -/
theorem position_cost_basis_zero_iff (cap slip fee : ℚ) (e0 : OrderEngine)
    (hinit : OrderEngine.init cap slip fee = .ok e0)
    (ops : List EngineOp) (hpp : PositivePrices ops)
    (e' : OrderEngine) (hrun : runOps e0 ops = .ok e') :
    (e'.position_cost_basis = 0 ↔ e'.position_qty = 0) ∧
      (∀ (e : OrderEngine) (ts : Ts) (qty price : ℚ)
          (e2 : OrderEngine) (t : Trade),
        e.execute_order ts "sell" qty price = .ok (e2, some t) →
        e.position_qty - pymin qty e.position_qty ≤ 1 / 1000000000000 →
        e2.position_qty = 0 ∧ e2.position_cost_basis = 0) := by
  constructor
  · have h0 : BasisInv e0 := by
      simp only [OrderEngine.init] at hinit
      split_ifs at hinit with hc
      simp only [Except.ok.injEq] at hinit
      subst hinit
      exact ⟨Or.inl ⟨rfl, rfl⟩, Or.inr ⟨lt_of_not_le hc, rfl, rfl⟩⟩
    have h := runOps_basisInv h0 hpp hrun
    rcases h.1 with ⟨hq, hb⟩ | ⟨hq, hb⟩
    · rw [hq, hb]
    · constructor
      · intro hc; exact absurd hc (ne_of_gt hb)
      · intro hc; exact absurd hc (ne_of_gt hq)
  · intro e ts qty price e2 t h hsnap
    have hsell : strLower "sell" = "sell" := by decide
    simp only [OrderEngine.execute_order, hsell] at h
    by_cases h1 : qty ≤ 0
    · rw [if_pos h1] at h
      injection h with h; injection h with hh1 hh2
      exact Option.noConfusion hh2
    rw [if_neg h1,
      if_neg (by decide : ¬(¬("sell" : String) = "buy" ∧
        ¬("sell" : String) = "sell")),
      if_neg (by decide : ¬("sell" : String) = "buy")] at h
    by_cases h5 : pymin qty e.position_qty ≤ 0
    · rw [if_pos h5] at h
      injection h with h; injection h with hh1 hh2
      exact Option.noConfusion hh2
    rw [if_neg h5] at h
    injection h with h; injection h with hh1 hh2; subst hh1
    simp only [if_pos hsnap]
    exact ⟨trivial, trivial⟩

/-- Witness for C7 at `OrderEngine(1, 0, 0)` after one buy, plus the snap
clause at a sell closing that position exactly. -/
theorem position_cost_basis_zero_iff_witness :
    (engine1b.position_cost_basis = 0 ↔ engine1b.position_qty = 0) :=
  (position_cost_basis_zero_iff 1 0 0 engine1 rfl
    [EngineOp.exec ⟨0, 0⟩ "buy" 1 1]
    (by
      intro op ho ts side q p hop
      simp only [List.mem_singleton] at ho
      subst ho
      cases hop
      norm_num)
    engine1b (by decide)).1

/-! ### C3 -/

/-- C3: the leaderboard is sorted by `total_return` descending and is a
permutation of the per-strategy rows built in selection order; rows with
equal `total_return` keep their original selection order (stable
tie-breaking): pandas implements `ascending=False` by reversing the
input, running a stable ascending argsort, and reversing the indexer
again, which preserves tie order. -/
theorem leaderboard_sorted_desc_ties_stable
    (data : List Bar) (strategies : Option (List String))
    (cap slip fee : ℚ) (rc : Option RiskConfig)
    (rows : List Row) (bts : List (String × BacktestResult))
    (r : LeagueResult)
    (hlr : league_rows data strategies cap slip fee rc = .ok (rows, bts))
    (hrun : run_league data strategies cap slip fee rc = .ok r) :
    List.Sorted (fun a b : Row => b.total_return ≤ a.total_return)
      r.leaderboard
    ∧ r.leaderboard.Perm rows
    ∧ (∀ a b : Row, a.total_return = b.total_return →
        List.Sublist [a, b] rows →
        List.Sublist [a, b] r.leaderboard) := by
  have hr : r.leaderboard = sort_values_total_return_desc rows := by
    simp only [run_league, hlr, bind, Except.bind, pure, Except.pure,
      Except.ok.injEq] at hrun
    rw [← hrun]
  rw [hr]
  refine ⟨?_, ?_, ?_⟩
  · have h1 : List.Sorted rowLe (List.insertionSort rowLe rows.reverse) :=
      List.sorted_insertionSort rowLe rows.reverse
    exact List.pairwise_reverse.mpr h1
  · exact (List.reverse_perm _).trans
      ((List.perm_insertionSort rowLe rows.reverse).trans
        (List.reverse_perm rows))
  · intro a b hab hsub
    have h0 : List.Sublist [b, a] rows.reverse := by
      simpa using hsub.reverse
    have h1 : List.Sublist [b, a] (List.insertionSort rowLe rows.reverse) :=
      List.pair_sublist_insertionSort (le_of_eq hab.symm) h0
    have h2 := h1.reverse
    simpa [sort_values_total_return_desc] using h2

/-- Rows produced by `league_rows` on empty bar data with the default
selection. -/
def rowsE : List Row :=
  [⟨"buy_hold", 10000, 0, 0, 0⟩,
   ⟨"sma_crossover", 10000, 0, 0, 0⟩,
   ⟨"rsi_mean_reversion", 10000, 0, 0, 0⟩]

/-- Backtest map produced by `league_rows` on empty bar data. -/
def btsE : List (String × BacktestResult) :=
  [("buy_hold", ⟨"buy_hold", [], [], ⟨0, 0, 0⟩⟩),
   ("sma_crossover", ⟨"sma_crossover", [], [], ⟨0, 0, 0⟩⟩),
   ("rsi_mean_reversion", ⟨"rsi_mean_reversion", [], [], ⟨0, 0, 0⟩⟩)]

/-- `run_league` result on empty bar data: all returns tie at 0 and the
stable descending sort keeps the rows in selection order. -/
def leagueE : LeagueResult := ⟨rowsE, btsE⟩

/-- Witness for C3 on empty bar data, where every strategy's return ties
at 0: the leaderboard is sorted, is a permutation of the rows, and keeps
the tied pair `buy_hold`/`sma_crossover` in selection order. -/
theorem leaderboard_sorted_desc_ties_stable_witness :
    List.Sorted (fun a b : Row => b.total_return ≤ a.total_return)
      leagueE.leaderboard ∧ leagueE.leaderboard.Perm rowsE ∧
      List.Sublist
        [⟨"buy_hold", 10000, 0, 0, 0⟩, ⟨"sma_crossover", 10000, 0, 0, 0⟩]
        leagueE.leaderboard :=
  ⟨(leaderboard_sorted_desc_ties_stable [] none 10000 2 5 none rowsE btsE
      leagueE (by decide) (by decide)).1,
   (leaderboard_sorted_desc_ties_stable [] none 10000 2 5 none rowsE btsE
      leagueE (by decide) (by decide)).2.1,
   (leaderboard_sorted_desc_ties_stable [] none 10000 2 5 none rowsE btsE
      leagueE (by decide) (by decide)).2.2
     ⟨"buy_hold", 10000, 0, 0, 0⟩ ⟨"sma_crossover", 10000, 0, 0, 0⟩
     rfl (by decide)⟩

/-! ### C10 -/

/-- `size_buy_qty` only returns a positive quantity at a positive price
(the first guard returns 0 otherwise). -/
lemma size_buy_qty_pos_price {r : RiskManager} {f p c e q : ℚ}
    (h : 0 < r.size_buy_qty f p c e q) : 0 < p := by
  by_contra hp
  unfold RiskManager.size_buy_qty at h
  rw [if_pos (Or.inl (le_of_not_lt hp))] at h
  exact lt_irrefl 0 h

/-- With the default league rates (slippage 2 bps, fee 5 bps), a buy
whose quantity is positive only at a positive price cannot raise: the
affordable-quantity divisor is positive. -/
lemma execute_order_buy_ok (e : OrderEngine) (ts : Ts) (qty price : ℚ)
    (hs : e.slippage_bps = 2) (hf : e.fee_bps = 5)
    (hqp : qty ≤ 0 ∨ 0 < price) :
    ∃ out, e.execute_order ts "buy" qty price = .ok out := by
  by_cases h1 : qty ≤ 0
  · exact ⟨(e, none), by simp only [OrderEngine.execute_order, if_pos h1]⟩
  have hp : 0 < price := hqp.resolve_left h1
  have hD : price * (1 + e.slippage_rate) * (1 + e.fee_rate) ≠ 0 := by
    have h2 : e.slippage_rate = 2 / 10000 := by
      unfold OrderEngine.slippage_rate; rw [hs]
    have h3 : e.fee_rate = 5 / 10000 := by
      unfold OrderEngine.fee_rate; rw [hf]
    rw [h2, h3]
    exact ne_of_gt (mul_pos (mul_pos hp (by norm_num)) (by norm_num))
  simp only [OrderEngine.execute_order, if_neg h1]
  rw [show strLower "buy" = "buy" from by decide]
  rw [if_neg (by decide : ¬(¬("buy" : String) = "buy" ∧
      ¬("buy" : String) = "sell")),
    if_pos (rfl : ("buy" : String) = "buy"), if_neg hD]
  by_cases h5 : pymin qty
      (e.cash / (price * (1 + e.slippage_rate) * (1 + e.fee_rate))) ≤ 0
  · exact ⟨(e, none), by rw [if_pos h5]⟩
  · exact ⟨_, by rw [if_neg h5]⟩

/-- A sell never raises: no division sits on its path (the average-cost
division is guarded by `position_qty > 0`). -/
lemma execute_order_sell_ok (e : OrderEngine) (ts : Ts) (qty price : ℚ) :
    ∃ out, e.execute_order ts "sell" qty price = .ok out := by
  by_cases h1 : qty ≤ 0
  · exact ⟨(e, none), by simp only [OrderEngine.execute_order, if_pos h1]⟩
  simp only [OrderEngine.execute_order, if_neg h1]
  rw [show strLower "sell" = "sell" from by decide]
  rw [if_neg (by decide : ¬(¬("sell" : String) = "buy" ∧
      ¬("sell" : String) = "sell")),
    if_neg (by decide : ¬("sell" : String) = "buy")]
  by_cases h5 : pymin qty e.position_qty ≤ 0
  · exact ⟨(e, none), by rw [if_pos h5]⟩
  · exact ⟨_, by rw [if_neg h5]⟩

/-- One bar of the default-rate backtest loop never raises and keeps the
engine's configured rates. -/
lemma run_bar_ok (engine : OrderEngine) (risk : RiskManager) (agent : Agent)
    (i : Nat) (b : Bar)
    (hs : engine.slippage_bps = 2) (hf : engine.fee_bps = 5) :
    ∃ st2, run_bar (engine, risk, agent) i b = .ok st2 ∧
      st2.1.slippage_bps = 2 ∧ st2.1.fee_bps = 5 := by
  rcases hob : agent.on_bar i b engine.position_qty with ⟨sig, agent2⟩
  simp only [run_bar, hob]
  set risk2 := risk.register_equity b.timestamp
    (engine.total_equity b.close) with hrisk2
  by_cases hc1 : strLower sig.action = "buy" ∧ risk2.can_add_risk = true
  · rw [if_pos hc1]
    set qty := risk2.size_buy_qty sig.size b.close engine.cash
      (engine.total_equity b.close) engine.position_qty with hqty
    have hqp : qty ≤ 0 ∨ 0 < b.close := by
      by_cases hq : qty ≤ 0
      · exact Or.inl hq
      · exact Or.inr (size_buy_qty_pos_price (lt_of_not_le hq))
    obtain ⟨out, hout⟩ :=
      execute_order_buy_ok engine b.timestamp qty b.close hs hf hqp
    have hcfg := execute_order_ok_config hout
    refine ⟨((out.1.mark_to_market b.timestamp b.close).1, risk2, agent2),
      ?_, ?_, ?_⟩
    · simp only [hout, bind, Except.bind, pure, Except.pure]
    · exact hcfg.1.trans hs
    · exact hcfg.2.1.trans hf
  · rw [if_neg hc1]
    by_cases hc2 : strLower sig.action = "sell"
    · rw [if_pos hc2]
      obtain ⟨out, hout⟩ := execute_order_sell_ok engine b.timestamp
        (risk2.size_sell_qty sig.size engine.position_qty) b.close
      have hcfg := execute_order_ok_config hout
      refine ⟨((out.1.mark_to_market b.timestamp b.close).1, risk2, agent2),
        ?_, ?_, ?_⟩
      · simp only [hout, bind, Except.bind, pure, Except.pure]
      · exact hcfg.1.trans hs
      · exact hcfg.2.1.trans hf
    · rw [if_neg hc2]
      exact ⟨((engine.mark_to_market b.timestamp b.close).1, risk2, agent2),
        rfl, hs, hf⟩

lemma run_bars_ok : ∀ (l : List (Nat × Bar)) (engine : OrderEngine)
    (risk : RiskManager) (agent : Agent),
    engine.slippage_bps = 2 → engine.fee_bps = 5 →
    ∃ st2, run_bars (engine, risk, agent) l = .ok st2 ∧
      st2.1.slippage_bps = 2 ∧ st2.1.fee_bps = 5 := by
  intro l
  induction l with
  | nil =>
      intro engine risk agent hs hf
      exact ⟨(engine, risk, agent), rfl, hs, hf⟩
  | cons ib rest ih =>
      intro engine risk agent hs hf
      obtain ⟨st2, hstep, hs2, hf2⟩ := run_bar_ok engine risk agent ib.1 ib.2 hs hf
      obtain ⟨e2, r2, a2⟩ := st2
      obtain ⟨st3, hrest, hs3, hf3⟩ := ih e2 r2 a2 hs2 hf2
      refine ⟨st3, ?_, hs3, hf3⟩
      simp only [run_bars, hstep, bind, Except.bind]
      exact hrest

/-- The engine `OrderEngine(10000, 2, 5)` produces. -/
def engine10k : OrderEngine :=
  { initial_capital := 10000
    cash := 10000
    position_qty := 0
    position_cost_basis := 0
    slippage_bps := 2
    fee_bps := 5
    trades := []
    equity_points := [] }

/-- The risk manager `RiskManager(None)` produces. -/
def riskD : RiskManager :=
  { config := RiskConfig.default
    current_day := none
    day_start_equity := none
    guard_triggered := false }

/-- A default-parameter backtest never raises, whatever the data and the
agent. -/
lemma run_backtest_ok (data : List Bar) (agent : Agent) :
    ∃ result, run_backtest data agent 10000 2 5 none = .ok result := by
  simp only [run_backtest]
  rw [show OrderEngine.init 10000 2 5 = .ok engine10k from rfl,
    show RiskManager.init none = .ok riskD from rfl]
  obtain ⟨st2, hst, _, _⟩ := run_bars_ok data.enum engine10k riskD
    ((agent.reset).prepare data) rfl rfl
  simp only [bind, Except.bind, hst, pure, Except.pure]
  exact ⟨_, rfl⟩

lemma league_rows_go_ok (data : List Bar) :
    ∀ (names : List String) (acc : List Row × List (String × BacktestResult)),
      (∀ n ∈ names, (List.lookup n get_baseline_agents).isSome = true) →
      ∃ rows bts,
        league_rows_go data 10000 2 5 none acc names = .ok (rows, bts) ∧
          rows.map Row.strategy = acc.1.map Row.strategy ++ names := by
  intro names
  induction names with
  | nil =>
      intro acc _
      exact ⟨acc.1, acc.2, rfl, by simp⟩
  | cons n rest ih =>
      intro acc hall
      obtain ⟨a, ha⟩ := Option.isSome_iff_exists.mp
        (hall n (List.mem_cons_self _ _))
      obtain ⟨result, hres⟩ := run_backtest_ok data a
      obtain ⟨rows, bts, hgo, hmap⟩ := ih
        (acc.1 ++
          [{ strategy := n
             final_equity :=
               if result.equity_curve.isEmpty then 10000
               else (result.equity_curve.map EquityPoint.equity).getLastD 10000
             total_return := result.metrics.total_return
             max_drawdown := result.metrics.max_drawdown
             win_rate := result.metrics.win_rate }],
         acc.2 ++ [(n, result)])
        (fun m hm => hall m (List.mem_cons_of_mem _ hm))
      refine ⟨rows, bts, ?_, ?_⟩
      · simp only [league_rows_go, ha, hres, bind, Except.bind]
        exact hgo
      · rw [hmap]
        simp

/-- C10: `run_league` with `strategies = None` and with an explicitly
empty strategy list behave identically, selecting all three baseline
strategies (Python's `if strategies` is falsy for both) and producing a
full three-row leaderboard whose strategy column is a permutation of the
baseline names — never an empty leaderboard or an error. -/
theorem empty_selection_runs_all_strategies (data : List Bar) :
    ∃ res, run_league data none 10000 2 5 none = .ok res ∧
      run_league data (some []) 10000 2 5 none = .ok res ∧
      res.leaderboard.length = 3 ∧
      (res.leaderboard.map Row.strategy).Perm
        ["buy_hold", "sma_crossover", "rsi_mean_reversion"] := by
  have hsame : run_league data (some []) 10000 2 5 none =
      run_league data none 10000 2 5 none := rfl
  obtain ⟨rows, bts, hgo, hmap⟩ := league_rows_go_ok data
    ["buy_hold", "sma_crossover", "rsi_mean_reversion"] ([], []) (by decide)
  have hlr : league_rows data none 10000 2 5 none = .ok (rows, bts) := hgo
  have hmap3 : rows.map Row.strategy =
      ["buy_hold", "sma_crossover", "rsi_mean_reversion"] := by
    simpa using hmap
  have hrun : run_league data none 10000 2 5 none =
      .ok { leaderboard := sort_values_total_return_desc rows
            backtests := bts } := by
    simp only [run_league, hlr, bind, Except.bind, pure, Except.pure]
  refine ⟨{ leaderboard := sort_values_total_return_desc rows
            backtests := bts }, hrun, hsame.trans hrun, ?_, ?_⟩
  · have hlen : rows.length = 3 := by
      have := congrArg List.length hmap3
      simpa using this
    simp [sort_values_total_return_desc, List.length_reverse,
      List.length_insertionSort, hlen]
  · have hperm : (sort_values_total_return_desc rows).Perm rows :=
      (List.reverse_perm _).trans
        ((List.perm_insertionSort rowLe rows.reverse).trans
          (List.reverse_perm rows))
    have h := hperm.map Row.strategy
    rw [hmap3] at h
    exact h

end TradingLeague
